import Mathlib

/-!
Verification of the Scheduly scheduling system against its specification.

The repository's checked-in sources contain the Next.js frontend
(`frontend/src/lib/api.ts`, `frontend/src/app/api/proxy/route.ts`,
`frontend/src/components/ScheduleCalendar.tsx`, ...).  The FastAPI backend
holding the constraint-satisfaction core is not part of the sources, so the
core (SectionScheduler, CourseSelectionPlanner, SessionState, Optimize) is
modelled from the specification text, while the frontend API client, proxy
route and calendar conversion are embedded directly from the TypeScript
sources.
-/

namespace Core

/-- Modelled from the spec: §3 Meeting day-of-week, "one of Mon–Fri". -/
inductive Day
  | mon | tue | wed | thu | fri
deriving DecidableEq, Repr, BEq

/-- Modelled from the spec: §3 Meeting — a single weekly time block with
start and end as minute-of-day integers. -/
structure Meeting where
  day : Day
  start : Nat
  stop : Nat
deriving DecidableEq, Repr, BEq

/-- Modelled from the spec: §3 Section — course code, registrar reference
number (crn), label, ordered meetings, credit value, optional instructor. -/
structure Section where
  course : String
  crn : String
  label : String
  meetings : List Meeting
  credits : Nat
  instructor : Option String := none
deriving DecidableEq, Repr, BEq

/-- Modelled from the spec: §4.2 step 4 interval overlap — day equality and
`start_a < end_b && start_b < end_a`. -/
def Meeting.overlaps (a b : Meeting) : Bool :=
  a.day == b.day && decide (a.start < b.stop) && decide (b.start < a.stop)

/-- Two sections conflict when some meeting of one overlaps some meeting of
the other (spec §4.2 step 4: pairwise time-overlap check). -/
def Section.conflicts (s t : Section) : Bool :=
  s.meetings.any fun m => t.meetings.any fun n => m.overlaps n

/-- Conflict of a candidate section against every already-committed section
(spec §4.2 step 4: "check pairwise time-overlap against every
already-committed Meeting"). -/
def conflictsAny (committed : List Section) (s : Section) : Bool :=
  committed.any fun t => t.conflicts s

/-- No meeting of `s` overlaps a meeting of `t` — the §3 invariant between
two sections of a plan. -/
def NonConflicting (s t : Section) : Prop :=
  ∀ m ∈ s.meetings, ∀ n ∈ t.meetings, m.overlaps n = false

/-- Modelled from the spec: §3 Constraints — day exclusions, time window,
pins (course ↦ section id), un-pin directives (used in deltas), skips,
target credit load. -/
structure Constraints where
  dayExclusions : List Day := []
  earliest : Option Nat := none
  latest : Option Nat := none
  pins : List (String × String) := []
  unpins : List String := []
  skips : List String := []
  targetCredits : Option Nat := none
deriving Repr

/-- Modelled from the spec: §3 ChooseFrom group — label, required count N,
eligible course codes. -/
structure ChooseFrom where
  label : String
  count : Nat
  options : List String
deriving DecidableEq, Repr

/-- Modelled from the spec: §3 RequirementSet — required codes, choose-from
and gen-ed groups, credit bounds, prerequisite edges (course, requires). -/
structure RequirementSet where
  required : List String
  genEds : List ChooseFrom := []
  chooseFrom : List ChooseFrom := []
  minCredits : Nat
  maxCredits : Nat
  prereqs : List (String × List String) := []
  multiSemesterPrereqs : List (String × List String) := []
deriving Repr

/-- Modelled from the spec: §3 SchedulePlan — term, total credits, chosen
sections, explanation strings, alternative sections per course. -/
structure SchedulePlan where
  term : String
  totalCredits : Nat
  sections : List Section
  explanations : List String
  alternatives : List (String × List Section)
deriving Repr

/-- Modelled from the spec: §3 SessionState — the RequirementSet used, the
cumulative Constraints and the last SchedulePlan for a session id. -/
structure SessionState where
  reqs : RequirementSet
  cons : Constraints
  lastPlan : SchedulePlan

/-- Modelled from the spec: §4.4 step 1 constraint merge — exclusions and
skips union, new pins overwrite only the same course's prior pin, an
explicit un-pin removes the course's pin, newer scalar fields win. -/
def mergeConstraints (cum delta : Constraints) : Constraints :=
  { dayExclusions := cum.dayExclusions ++ delta.dayExclusions
    earliest := match delta.earliest with | some e => some e | none => cum.earliest
    latest := match delta.latest with | some l => some l | none => cum.latest
    pins := delta.pins ++ cum.pins.filter fun p =>
      delta.pins.all (fun q => q.1 != p.1) && !(delta.unpins.contains p.1)
    unpins := []
    skips := cum.skips ++ delta.skips
    targetCredits := match delta.targetCredits with
      | some t => some t
      | none => cum.targetCredits }

/-- The effective pin of a course: second component of the first pin entry
for the course. -/
def pinLookup (pins : List (String × String)) (c : String) : Option String :=
  (pins.find? fun p => p.1 == c).map Prod.snd

/-- A meeting respects the hard day/time-window constraints
(spec §4.2 step 2). -/
def Meeting.respectsWindow (cons : Constraints) (m : Meeting) : Bool :=
  !(cons.dayExclusions.contains m.day) &&
  (match cons.earliest with | some e => decide (e ≤ m.start) | none => true) &&
  (match cons.latest with | some l => decide (m.stop ≤ l) | none => true)

/-- A section respects the hard window when all its meetings do. -/
def Section.respectsWindow (cons : Constraints) (s : Section) : Bool :=
  s.meetings.all (Meeting.respectsWindow cons)

/-- Modelled from the spec: §4.2 step 2 — filter candidates by the hard
day/time window; when the filter empties the set, relax it (soft). -/
def hardFilter (cons : Constraints) (cands : List Section) : List Section :=
  let f := cands.filter (Section.respectsWindow cons)
  if f.isEmpty then cands else f

/-- Total daily time spread of a section: summed meeting durations
(spec §4.2 step 3, tie-break 1). -/
def Section.spread (s : Section) : Nat :=
  (s.meetings.map fun m => m.stop - m.start).sum

/-- Lexicographic comparison of character lists (by character code). -/
def lexLe : List Char → List Char → Bool
  | [], _ => true
  | _ :: _, [] => false
  | a :: as, b :: bs =>
    if a < b then true else if b < a then false else lexLe as bs

/-- Lexicographic comparison of strings, by their character lists. -/
def strLe (c d : String) : Bool :=
  lexLe c.data d.data

/-- Modelled from the spec: §4.2 step 3 priority order — minimize total
daily time spread (tie-break 1), then lexicographic section id
(tie-break 2, for determinism). -/
def priorityLe (s t : Section) : Bool :=
  decide (s.spread < t.spread) ||
    (decide (s.spread = t.spread) && strLe s.crn t.crn)

/-- Insert into a list sorted by `le`. -/
def insertBy (le : α → α → Bool) (a : α) : List α → List α
  | [] => [a]
  | b :: bs => if le a b then a :: b :: bs else b :: insertBy le a bs

/-- Insertion sort by a boolean comparison. -/
def sortBy (le : α → α → Bool) : List α → List α
  | [] => []
  | a :: as => insertBy le a (sortBy le as)

/-- Modelled from the spec: §4.2 step 3 — attempt sections in priority
order and take the first with no conflicts against already-committed
meetings. -/
def pick (cons : Constraints) (committed : List Section) (cands : List Section) :
    Option Section :=
  (sortBy priorityLe (hardFilter cons cands)).find? fun s => !(conflictsAny committed s)

/-- Modelled from the spec: §4.2 SectionScheduler — one section per course,
committing only conflict-free sections, producing a partial assignment with
the unassignable courses (step 5 allows any backtracking bound; the bound
is fixed at zero extra attempts, returning the best partial found). -/
def schedule (catalog : String → List Section) (cons : Constraints) :
    List String → List Section → List Section × List String
  | [], committed => (committed, [])
  | c :: rest, committed =>
    match pick cons committed (catalog c) with
    | some s => schedule catalog cons rest (committed ++ [s])
    | none =>
      let r := schedule catalog cons rest committed
      (r.1, c :: r.2)

/-- Modelled from the spec: §4.4 steps 2–3 and §7 PinInvalidated — pinned
sections are injected as pre-committed assignments; a pin whose section is
missing from the catalog or conflicts with an earlier commitment is
invalidated and its course re-enters normal search. -/
def commitPins (catalog : String → List Section) :
    List (String × String) → List Section → List Section × List String
  | [], committed => (committed, [])
  | (c, crn) :: rest, committed =>
    match (catalog c).find? (fun s => s.crn == crn) with
    | some s =>
      if conflictsAny committed s then
        let r := commitPins catalog rest committed
        (r.1, c :: r.2)
      else
        commitPins catalog rest (committed ++ [s])
    | none =>
      let r := commitPins catalog rest committed
      (r.1, c :: r.2)

/-- Absolute difference of a candidate's credit value from the remaining
credit budget (spec §4.1 step 2c, "lower course-credit variance from the
remaining credit budget"). -/
def distTo (budget credit : Nat) : Nat :=
  (budget - credit) + (credit - budget)

/-- Modelled from the spec: §4.1 step 2 candidate preference — previously
pinned courses first, then lower credit distance from the remaining
budget, then lexicographic course code as final deterministic tie-break.
(The prerequisite-satisfaction preference of step 2b needs completed-course
data that the spec gives no input for and is omitted.) -/
def coursePriorityLe (pins : List (String × String)) (budget : Nat)
    (creditOf : String → Nat) (c d : String) : Bool :=
  let pc := pins.any fun p => p.1 == c
  let pd := pins.any fun p => p.1 == d
  (pc && !pd) ||
    (pc == pd &&
      (decide (distTo budget (creditOf c) < distTo budget (creditOf d)) ||
        (decide (distTo budget (creditOf c) = distTo budget (creditOf d)) &&
          strLe c d)))

/-- Modelled from the spec: §4.1 steps 2 and 4 — greedily select up to
`need` courses from `cands` in preference order, skipping a course whose
credits would push the running total past `maxCredits`. Returns the chosen
codes and the new running total. -/
def selectFrom (pins : List (String × String)) (creditOf : String → Nat)
    (maxC : Nat) : Nat → Nat → List String → List String × Nat
  | 0, total, _ => ([], total)
  | need + 1, total, cands =>
    match (sortBy (coursePriorityLe pins (maxC - total) creditOf) cands).find?
        (fun c => decide (total + creditOf c ≤ maxC)) with
    | none => ([], total)
    | some c =>
      let r := selectFrom pins creditOf maxC need (total + creditOf c) (cands.erase c)
      (c :: r.1, r.2)

/-- Modelled from the spec: §4.1 step 2 applied to each ChooseFrom group in
order, excluding courses already chosen, skipped, or deferred by
multi-semester prerequisites. Returns all chosen codes and the final
running total. -/
def planGroups (pins : List (String × String)) (creditOf : String → Nat)
    (maxC : Nat) (skips : List String) (msExcluded : String → Bool) :
    List ChooseFrom → Nat → List String → List String × Nat
  | [], total, _ => ([], total)
  | g :: gs, total, already =>
    let cands := g.options.filter fun c =>
      !(already.contains c) && !(skips.contains c) && !(msExcluded c)
    let r := selectFrom pins creditOf maxC g.count total cands
    let rest := planGroups pins creditOf maxC skips msExcluded gs r.2 (already ++ r.1)
    (r.1 ++ rest.1, rest.2)

/-- Explanation for a skipped required course (spec §4.1 step 1). -/
def skipMsg (c : String) : String :=
  "Skipped required course: " ++ c

/-- Explanation for a course deferred by a multi-semester prerequisite
(spec §4.1 step 3). -/
def deferMsg (c : String) : String :=
  "Deferred to a later term (multi-semester prerequisite): " ++ c

/-- Explanation for an invalidated pin (spec §4.4 step 3, §7
PinInvalidated). -/
def pinInvalidatedMsg (c : String) : String :=
  "PinInvalidated: pinned section for " ++ c ++ " is no longer valid"

/-- Explanation for an unassignable course (spec §4.2 step 6, §7
ConflictUnresolvable / DataUnavailable). -/
def unassignedMsg (c : String) : String :=
  "Unassignable course: " ++ c

/-- Explanation for a credit shortfall, naming the violated bound
(spec §4.1 step 4, §7 Infeasible). -/
def shortfallMsg (total minC : Nat) : String :=
  "Credit shortfall: total " ++ toString total ++
    " is below the minCredits bound " ++ toString minC

/-- Explanation for a credit excess, naming the violated bound (§7
Infeasible). -/
def exceedMsg (total maxC : Nat) : String :=
  "Credit excess: total " ++ toString total ++
    " exceeds the maxCredits bound " ++ toString maxC

/-- Required courses kept for this term: the required list minus skips and
minus courses deferred by multi-semester prerequisites (spec §4.1
steps 1 and 3). -/
def requiredKept (reqs : RequirementSet) (cons : Constraints) : List String :=
  (reqs.required.filter fun c => !(cons.skips.contains c)).filter fun c =>
    !(reqs.multiSemesterPrereqs.any fun p => p.1 == c)

/-- Modelled from the spec: §4.1 CourseSelectionPlanner — required courses
minus skips and deferrals, then greedy group selection within the credit
budget. Returns the ordered course list, the planned credit total, and the
planner's explanation notes. -/
def planCourses (reqs : RequirementSet) (cons : Constraints)
    (creditOf : String → Nat) : List String × Nat × List String :=
  let msExcluded := fun c => reqs.multiSemesterPrereqs.any fun p => p.1 == c
  let req1 := reqs.required.filter fun c => !(cons.skips.contains c)
  let req2 := requiredKept reqs cons
  let notes := (reqs.required.filter fun c => cons.skips.contains c).map skipMsg
      ++ (req1.filter msExcluded).map deferMsg
  let total0 := (req2.map creditOf).sum
  let r := planGroups cons.pins creditOf reqs.maxCredits cons.skips msExcluded
      (reqs.genEds ++ reqs.chooseFrom) total0 req2
  (req2 ++ r.1, r.2, notes)

/-- Credit value of a course, read off the catalog as the credits of its
first listed section (spec §3: Course credit value, sourced from the
requirement/catalog data). -/
def creditOfCatalog (catalog : String → List Section) (c : String) : Nat :=
  match (catalog c).head? with
  | some s => s.credits
  | none => 0

/-- Intermediate results of one solve: planned courses and notes, committed
pins and invalidated pins, placed sections and unassignable courses. -/
structure SolveParts where
  courses : List String
  notes : List String
  pinned : List Section
  invalidPins : List String
  placed : List Section
  unassigned : List String

/-- Modelled from the spec: §2 data flow — CourseSelectionPlanner, then pin
injection, then SectionScheduler over the remaining courses. -/
def solveParts (catalog : String → List Section) (reqs : RequirementSet)
    (cons : Constraints) : SolveParts :=
  let p := planCourses reqs cons (creditOfCatalog catalog)
  let pinsR := commitPins catalog cons.pins []
  let committedCourses := pinsR.1.map Section.course
  let remaining := p.1.filter fun c => !(committedCourses.contains c)
  let s := schedule catalog cons remaining pinsR.1
  { courses := p.1, notes := p.2.2, pinned := pinsR.1, invalidPins := pinsR.2
    placed := s.1, unassigned := s.2 }

/-- Alternatives per placed course: up to 3 next-best conflict-free
sections, in the §4.2 step 3 tie-break order (spec §4.3 Explainer). -/
def alternativesFor (catalog : String → List Section) (placed : List Section) :
    List (String × List Section) :=
  placed.map fun s =>
    (s.course,
      ((sortBy priorityLe (catalog s.course)).filter fun t =>
        t.crn != s.crn && !(conflictsAny placed t)).take 3)

/-- Modelled from the spec: §2 and §4 — a full solve producing a
SchedulePlan; total credits are the sum of the placed sections' credits,
and infeasibilities (skips, deferrals, invalid pins, unassignable courses,
violated credit bounds) are recovered into explanation strings (§7). -/
def solveCore (catalog : String → List Section) (reqs : RequirementSet)
    (term : String) (cons : Constraints) : SchedulePlan :=
  let p := solveParts catalog reqs cons
  let total := (p.placed.map Section.credits).sum
  { term := term
    totalCredits := total
    sections := p.placed
    explanations := p.notes ++ p.invalidPins.map pinInvalidatedMsg
      ++ p.unassigned.map unassignedMsg
      ++ (if total < reqs.minCredits then [shortfallMsg total reqs.minCredits] else [])
      ++ (if reqs.maxCredits < total then [exceedMsg total reqs.maxCredits] else [])
    alternatives := alternativesFor catalog p.placed }

/-- Modelled from the spec: §7 error taxonomy — the hard failures a core
operation can surface. -/
inductive CoreError
  | SessionNotFound
  | RequirementsNotFound
deriving DecidableEq, Repr

/-- Modelled from the spec: §6 `Build(school, major, term,
initialConstraints) -> (sessionId, RequirementSet, SchedulePlan)`; the
fresh session id is supplied by the external session store. -/
def Build (provider : String → String → String → Option RequirementSet)
    (catalog : String → List Section) (newSid school major term : String)
    (cons : Constraints) :
    Except CoreError (String × RequirementSet × SchedulePlan) :=
  match provider school major term with
  | none => .error .RequirementsNotFound
  | some reqs => .ok (newSid, reqs, solveCore catalog reqs term cons)

/-- Modelled from the spec: §6 `Optimize(sessionId, constraintsDelta) ->
SchedulePlan`, failing with SessionNotFound exactly when the id is unknown
or expired (§7: every other condition is recovered into the plan). -/
def Optimize (store : String → Option SessionState)
    (catalog : String → List Section) (sid : String) (delta : Constraints) :
    Except CoreError SchedulePlan :=
  match store sid with
  | none => .error .SessionNotFound
  | some st =>
    .ok (solveCore catalog st.reqs st.lastPlan.term (mergeConstraints st.cons delta))

/-- Modelled from the spec: §6 and §9 — the transport-layer build receives
the raw utterance and converts it to Constraints via the external
PreferenceParser before the core runs. -/
def BuildFromUtterance (parse : String → Constraints)
    (provider : String → String → String → Option RequirementSet)
    (catalog : String → List Section) (newSid school major term utterance : String) :
    Except CoreError (String × RequirementSet × SchedulePlan) :=
  Build provider catalog newSid school major term (parse utterance)

/-- Modelled from the spec: §6 and §9 — the transport-layer optimize
receives the raw utterance and converts it to Constraints via the external
PreferenceParser before the core runs. -/
def OptimizeFromUtterance (parse : String → Constraints)
    (store : String → Option SessionState)
    (catalog : String → List Section) (sid utterance : String) :
    Except CoreError SchedulePlan :=
  Optimize store catalog sid (parse utterance)

end Core

namespace Api

/-- A JSON value, as far as the request bodies built in
`frontend/src/lib/api.ts` need. -/
inductive JVal
  | s (v : String)
  | n (v : Int)
  | b (v : Bool)
deriving DecidableEq, Repr

/-- A JSON object as an ordered field list (JavaScript object key order). -/
abbrev JObj := List (String × JVal)

/-- Optional JSON field: `JSON.stringify` omits keys whose value is
`undefined`. -/
def jOpt (k : String) (v : Option JVal) : JObj :=
  match v with
  | some x => [(k, x)]
  | none => []

/-- JavaScript object spread `\x7b ...base, ...ext \x7d` restricted to the
shape used in `ApiClient.request`: keys of `ext` override same-named keys
of `base` in place, remaining `ext` keys are appended. -/
def mergeObj (base ext : JObj) : JObj :=
  (base.map fun kv =>
    (kv.1, (((ext.find? fun p => p.1 == kv.1).map Prod.snd).getD kv.2)))
  ++ ext.filter fun p => base.all fun kv => kv.1 != p.1

/-- `ChooseFrom` from `frontend/src/lib/api.ts`. -/
structure ChooseFrom where
  label : String
  count : Nat
  options : List String
deriving Repr

/-- `Prereq` from `frontend/src/lib/api.ts`. -/
structure Prereq where
  course : String
  requires : List String
deriving Repr

/-- `RequirementSet` from `frontend/src/lib/api.ts` (lines 16–25). -/
structure RequirementSet where
  catalogYear : Option String := none
  required : List String
  genEds : List ChooseFrom
  chooseFrom : List ChooseFrom
  minCredits : Option Nat := none
  maxCredits : Option Nat := none
  prereqs : List Prereq
  multiSemesterPrereqs : List Prereq
deriving Repr

/-- The `days` field of `Section` in `frontend/src/lib/api.ts`:
`string[] | string`. -/
inductive DaysField
  | list (l : List String)
  | str (s : String)
deriving DecidableEq, Repr

/-- `Section` from `frontend/src/lib/api.ts` (lines 27–36); the source
field `end` is rendered `stop` (`end` is reserved in Lean). -/
structure Section where
  course : String
  crn : String
  «section» : String
  days : DaysField
  start : String
  stop : String
  instructor : Option String := none
  credits : Nat
deriving DecidableEq, Repr

/-- `SchedulePlan` from `frontend/src/lib/api.ts` (lines 38–44);
`alternatives` entries are opaque records. -/
structure SchedulePlan where
  term : String
  totalCredits : Nat
  sections : List Section
  explanations : List String
  alternatives : List JObj
deriving Repr

/-- `BuildScheduleRequest` from `frontend/src/lib/api.ts` (lines 46–51). -/
structure BuildScheduleRequest where
  school : String
  major : String
  term : Option String := none
  utterance : Option String := none
deriving Repr

/-- `BuildScheduleResponse` from `frontend/src/lib/api.ts` (lines 53–57). -/
structure BuildScheduleResponse where
  session_id : String
  requirements : RequirementSet
  plan : SchedulePlan
deriving Repr

/-- `OptimizeScheduleRequest` from `frontend/src/lib/api.ts`
(lines 59–62). -/
structure OptimizeScheduleRequest where
  session_id : String
  utterance : String
deriving Repr

/-- `SaveScheduleRequest` from `frontend/src/lib/api.ts` (lines 79–82). -/
structure SaveScheduleRequest where
  session_id : String
  title : Option String := none
deriving Repr

/-- `UpdateScheduleRequest` from `frontend/src/lib/api.ts`
(lines 109–112). -/
structure UpdateScheduleRequest where
  title : Option String := none
  is_favorite : Option Bool := none
deriving Repr

/-- Field names of the `RequirementSet` interface in
`frontend/src/lib/api.ts`, in declaration order. -/
def requirementSetFields : List String :=
  ["catalogYear", "required", "genEds", "chooseFrom", "minCredits",
   "maxCredits", "prereqs", "multiSemesterPrereqs"]

/-- Field names of the `SchedulePlan` interface in
`frontend/src/lib/api.ts`, in declaration order. -/
def schedulePlanFields : List String :=
  ["term", "totalCredits", "sections", "explanations", "alternatives"]

/-- Field names of the `BuildScheduleResponse` interface in
`frontend/src/lib/api.ts`, in declaration order. -/
def buildScheduleResponseFields : List String :=
  ["session_id", "requirements", "plan"]

/-- The stable RequirementSet field names named by the spec (§6). -/
def specStableRequirementFields : List String :=
  ["required", "genEds", "chooseFrom", "minCredits", "maxCredits",
   "prereqs", "multiSemesterPrereqs"]

/-- The stable SchedulePlan field names named by the spec (§6). -/
def specStablePlanFields : List String :=
  ["term", "totalCredits", "sections", "explanations", "alternatives"]

/-- JSON body of `buildSchedule`'s request
(`JSON.stringify(data)` for a `BuildScheduleRequest`). -/
def BuildScheduleRequest.toJson (d : BuildScheduleRequest) : JObj :=
  [("school", .s d.school), ("major", .s d.major)]
    ++ jOpt "term" (d.term.map .s)
    ++ jOpt "utterance" (d.utterance.map .s)

/-- JSON body of `optimizeSchedule`'s request. -/
def OptimizeScheduleRequest.toJson (d : OptimizeScheduleRequest) : JObj :=
  [("session_id", .s d.session_id), ("utterance", .s d.utterance)]

/-- JSON body of `saveSchedule`'s request. -/
def SaveScheduleRequest.toJson (d : SaveScheduleRequest) : JObj :=
  [("session_id", .s d.session_id)] ++ jOpt "title" (d.title.map .s)

/-- JSON body of `updateSchedule`'s request. -/
def UpdateScheduleRequest.toJson (d : UpdateScheduleRequest) : JObj :=
  jOpt "title" (d.title.map .s) ++ jOpt "is_favorite" (d.is_favorite.map .b)

/-- The `RequestInit` options an `ApiClient` operation passes to
`request` (`frontend/src/lib/api.ts`): named method, optional JSON body
(already modelled as the parsed object), extra headers. -/
structure RequestOptions where
  method : Option String := none
  body : Option JObj := none
  headers : List (String × String) := []
deriving Repr

/-- The HTTP request `ApiClient.request` actually issues. -/
structure IssuedRequest where
  url : String
  method : String
  headers : List (String × String)
  body : JObj
deriving Repr

/-- `API_BASE_URL` from `frontend/src/lib/api.ts` line 2. -/
def API_BASE_URL : String := "/api/proxy"

/-- `ApiClient.request` from `frontend/src/lib/api.ts` (lines 142–189): the
issued request always targets the proxy URL with method POST, header
Content-Type plus the caller's headers, and a body holding the backend
endpoint under the key `endpoint` spread together with the operation's
data. -/
def request (endpoint : String) (options : RequestOptions) : IssuedRequest :=
  let requestData := options.body.getD []
  { url := API_BASE_URL
    method := "POST"
    headers := ("Content-Type", "application/json") :: options.headers
    body := mergeObj [("endpoint", .s endpoint)] requestData }

/-- `ApiClient.healthCheck` (`frontend/src/lib/api.ts` lines 191–193). -/
def healthCheck : IssuedRequest :=
  request "/health" {}

/-- `ApiClient.buildSchedule` (lines 195–202). -/
def buildSchedule (d : BuildScheduleRequest) : IssuedRequest :=
  request "/build" { method := some "POST", body := some d.toJson }

/-- `ApiClient.optimizeSchedule` (lines 204–211). -/
def optimizeSchedule (d : OptimizeScheduleRequest) : IssuedRequest :=
  request "/optimize" { method := some "POST", body := some d.toJson }

/-- `ApiClient.saveSchedule` (lines 214–225). -/
def saveSchedule (d : SaveScheduleRequest) (authToken : String) : IssuedRequest :=
  request "/schedules"
    { method := some "POST", body := some d.toJson
      headers := [("Authorization", "Bearer " ++ authToken)] }

/-- `ApiClient.getUserSchedules` (lines 227–241). -/
def getUserSchedules (authToken : String) (limit offset : Nat) : IssuedRequest :=
  request ("/schedules?limit=" ++ toString limit ++ "&offset=" ++ toString offset)
    { method := some "GET"
      headers := [("Authorization", "Bearer " ++ authToken)] }

/-- `ApiClient.getSchedule` (lines 243–253). -/
def getSchedule (scheduleId authToken : String) : IssuedRequest :=
  request ("/schedules/" ++ scheduleId)
    { method := some "GET"
      headers := [("Authorization", "Bearer " ++ authToken)] }

/-- `ApiClient.updateSchedule` (lines 255–267). -/
def updateSchedule (scheduleId : String) (d : UpdateScheduleRequest)
    (authToken : String) : IssuedRequest :=
  request ("/schedules/" ++ scheduleId)
    { method := some "PUT", body := some d.toJson
      headers := [("Authorization", "Bearer " ++ authToken)] }

/-- `ApiClient.deleteSchedule` (lines 269–279). -/
def deleteSchedule (scheduleId authToken : String) : IssuedRequest :=
  request ("/schedules/" ++ scheduleId)
    { method := some "DELETE"
      headers := [("Authorization", "Bearer " ++ authToken)] }

/-- `ApiClient.getUserProfile` (lines 281–288). -/
def getUserProfile (authToken : String) : IssuedRequest :=
  request "/user/profile"
    { method := some "GET"
      headers := [("Authorization", "Bearer " ++ authToken)] }

end Api

namespace Calendar

/-- `dayMapping` from
`frontend/src/components/ScheduleCalendar.tsx` (lines 149–160), reduced to
the day-column index (the `short` name is determined by the index). -/
def dayMapping : String → Option Nat
  | "Mon" => some 0
  | "Monday" => some 0
  | "Tue" => some 1
  | "Tuesday" => some 1
  | "Wed" => some 2
  | "Wednesday" => some 2
  | "Thu" => some 3
  | "Thursday" => some 3
  | "Fri" => some 4
  | "Friday" => some 4
  | _ => none

/-- The day names `dayMapping` recognizes. -/
def recognizedDays : List String :=
  ["Mon", "Monday", "Tue", "Tuesday", "Wed", "Wednesday",
   "Thu", "Thursday", "Fri", "Friday"]

/-- Time parsing in `ScheduleCalendar.tsx` (lines 176–180):
`const [h, m] = s.split(':').map(Number); h * 60 + m`. A missing or
non-numeric component is modelled as 0 (JavaScript would yield NaN; no
claim evaluates the conversion on a malformed time). -/
def toMinutes (s : String) : Nat :=
  match s.splitOn ":" with
  | h :: m :: _ => (h.toNat?.getD 0) * 60 + (m.toNat?.getD 0)
  | [h] => (h.toNat?.getD 0) * 60
  | [] => 0

/-- The day list of a section (`ScheduleCalendar.tsx` lines 168–170): a
string value is split on commas and trimmed, a list is used as is. -/
def dayListOf : Api.DaysField → List String
  | .str s => (s.splitOn ",").map String.trim
  | .list l => l

/-- `CalendarEvent` from `ScheduleCalendar.tsx` (lines 30–45); the
`extendedProps` course/section/crn/instructor are carried on the section
and omitted here, except `crn` which the grid rendering keys on. -/
structure CalendarEvent where
  id : String
  title : String
  startTime : String
  endTime : String
  day : String
  startMinutes : Nat
  endMinutes : Nat
  duration : Int
  crn : String
deriving DecidableEq, Repr

/-- The events conversion of one section (`ScheduleCalendar.tsx`
lines 167–201): one event per day name that `dayMapping` recognizes;
unrecognized day names produce nothing. -/
def sectionEvents (s : Api.Section) : List CalendarEvent :=
  (dayListOf s.days).filterMap fun dayName =>
    match dayMapping dayName with
    | some _ => some
        { id := s.crn ++ "-" ++ dayName
          title := s.course ++ " (" ++ s.«section» ++ ")"
          startTime := s.start
          endTime := s.stop
          day := dayName
          startMinutes := toMinutes s.start
          endMinutes := toMinutes s.stop
          duration := (toMinutes s.stop : Int) - (toMinutes s.start : Int)
          crn := s.crn }
    | none => none

/-- All calendar events of a plan's sections (`ScheduleCalendar.tsx`
lines 164–201). -/
def events (sections : List Api.Section) : List CalendarEvent :=
  sections.flatMap sectionEvents

/-- `getEventsForDay` (`ScheduleCalendar.tsx` lines 237–239). -/
def getEventsForDay (evs : List CalendarEvent) (dayIndex : Nat) :
    List CalendarEvent :=
  evs.filter fun e => dayMapping e.day == some dayIndex

/-- The "Total Courses" figure of the Schedule Summary
(`ScheduleCalendar.tsx` line 280): the length of the sections list. -/
def summaryCourseCount (sections : List Api.Section) : Nat :=
  sections.length

/-- The "Total Credits" figure of the Schedule Summary
(`ScheduleCalendar.tsx` line 284): the plan's `totalCredits` field. -/
def summaryTotalCredits (plan : Api.SchedulePlan) : Nat :=
  plan.totalCredits

/-- The Course Details list (`ScheduleCalendar.tsx` lines 404–520) renders
every element of `sections`, whatever its day names. -/
def courseDetailsList (sections : List Api.Section) : List Api.Section :=
  sections

/-- The spec's claimed boundary representation of a meeting day: one of
Mon–Fri (spec §3, transcribed for refutation). -/
def specClaimedDayNames : List String :=
  ["Mon", "Tue", "Wed", "Thu", "Fri"]

/-- Whether a character is a decimal digit. -/
def charDigit (c : Char) : Bool :=
  decide (48 ≤ c.toNat) && decide (c.toNat ≤ 57)

/-- The numeric value of a digit string. -/
def digitsToNat (l : List Char) : Nat :=
  l.foldl (fun acc c => acc * 10 + (c.toNat - 48)) 0

/-- The spec's claimed boundary representation of a time: a minute-of-day
integer (spec §3, transcribed for refutation): the string crossing the
boundary would have to be a decimal integer numeral below 1440. -/
def isMinuteOfDayNumeral (str : String) : Bool :=
  !(str.data.isEmpty) && str.data.all charDigit
    && decide (digitsToNat str.data < 1440)

/-- The spec's claimed meeting representation (§3 Meeting), stated of the
`Section` values actually exchanged across the boundary: every day name
one of Mon–Fri and both times minute-of-day integers. Transcribed from the
spec's words for refutation against the source representation. -/
def specMeetingRep (s : Api.Section) : Bool :=
  (dayListOf s.days).all (fun d => specClaimedDayNames.contains d)
    && isMinuteOfDayNumeral s.start && isMinuteOfDayNumeral s.stop

end Calendar

namespace Core

/-- Pairwise non-conflict of a section list, as a boolean. -/
def pairwiseOk : List Section → Bool
  | [] => true
  | s :: rest => rest.all (fun t => !(s.conflicts t)) && pairwiseOk rest

/-- Spec-side definition following §3's words: a feasible assignment for a
requirement set — pairwise non-overlapping catalog sections covering every
required course, satisfying each group with exactly its count of distinct
options, with total credits within the credit bounds. Used to state the
"whenever a feasible assignment exists" side of the credit-bound
invariant. -/
def feasiblePlanB (catalog : String → List Section) (reqs : RequirementSet)
    (ss : List Section) : Bool :=
  pairwiseOk ss
    && reqs.required.all (fun c => ss.any fun s => s.course == c)
    && (reqs.genEds ++ reqs.chooseFrom).all (fun g =>
        ((ss.map Section.course).filter (fun c => g.options.contains c)).dedup.length
          == g.count)
    && ss.all (fun s => (catalog s.course).contains s)
    && decide (reqs.minCredits ≤ (ss.map Section.credits).sum)
    && decide ((ss.map Section.credits).sum ≤ reqs.maxCredits)

/-- Fixture: a section of course CS0445 (Mon/Wed 10:00–11:15, 4 credits). -/
def wSecA : Section :=
  { course := "CS0445", crn := "11111", label := "A"
    meetings := [⟨.mon, 600, 675⟩, ⟨.wed, 600, 675⟩], credits := 4 }

/-- Fixture: a section of course CS1501 (Tue 09:00–10:15, 3 credits). -/
def wSecC : Section :=
  { course := "CS1501", crn := "22222", label := "C"
    meetings := [⟨.tue, 540, 615⟩], credits := 3 }

/-- Fixture: a two-course catalog. -/
def wCatalog (c : String) : List Section :=
  if c = "CS0445" then [wSecA] else if c = "CS1501" then [wSecC] else []

/-- Fixture: a requirement set demanding both catalog courses. -/
def wReqs : RequirementSet :=
  { required := ["CS0445", "CS1501"], minCredits := 6, maxCredits := 9 }

/-- Fixture: constraints pinning CS0445 to its section 11111. -/
def wCons : Constraints :=
  { pins := [("CS0445", "11111")] }

/-- Fixture: a requirements provider that always finds `wReqs`. -/
def wProvider (_school _major _term : String) : Option RequirementSet :=
  some wReqs

/-- Fixture: the session state after the initial build. -/
def wState : SessionState :=
  { reqs := wReqs, cons := wCons
    lastPlan := solveCore wCatalog wReqs "2251" wCons }

/-- Fixture: a session store holding exactly session "s1". -/
def wStore (sid : String) : Option SessionState :=
  if sid = "s1" then some wState else none

/-- Fixture for the credit-bound analysis: a 6-credit elective. -/
def sec5A : Section :=
  { course := "CSA", crn := "10001", label := "A"
    meetings := [⟨.mon, 540, 600⟩], credits := 6 }

/-- Fixture for the credit-bound analysis: a 5-credit elective. -/
def sec5B : Section :=
  { course := "CSB", crn := "10002", label := "B"
    meetings := [⟨.tue, 540, 600⟩], credits := 5 }

/-- Fixture for the credit-bound analysis: another 5-credit elective. -/
def sec5C : Section :=
  { course := "CSC", crn := "10003", label := "C"
    meetings := [⟨.wed, 540, 600⟩], credits := 5 }

/-- Fixture: catalog offering the three electives. -/
def ex5Catalog (c : String) : List Section :=
  if c = "CSA" then [sec5A]
  else if c = "CSB" then [sec5B]
  else if c = "CSC" then [sec5C]
  else []

/-- Fixture: choose 2 of the three electives, credits bounded to exactly
10. -/
def ex5Reqs : RequirementSet :=
  { required := []
    chooseFrom := [⟨"G", 2, ["CSA", "CSB", "CSC"]⟩]
    minCredits := 10, maxCredits := 10 }

/-- Fixture: the plan the core produces on the elective scenario with no
user constraints. -/
def ex5Plan : SchedulePlan :=
  solveCore ex5Catalog ex5Reqs "2251" {}

/-- Fixture: a requirement set whose single required course alone exceeds
the credit maximum. -/
def ex5ReqReqs : RequirementSet :=
  { required := ["CSA"], minCredits := 0, maxCredits := 5 }

/-- Fixture: the plan for the oversized required course. -/
def ex5ReqPlan : SchedulePlan :=
  solveCore ex5Catalog ex5ReqReqs "2251" {}

/-- Fixture: no required courses, credits capped at 5. -/
def ex5PinReqs : RequirementSet :=
  { required := [], minCredits := 0, maxCredits := 5 }

/-- Fixture: constraints pinning the 6-credit section 10001. -/
def ex5PinCons : Constraints :=
  { pins := [("CSA", "10001")] }

/-- Fixture: the plan with the 6-credit pin under the 5-credit cap. -/
def ex5PinPlan : SchedulePlan :=
  solveCore ex5Catalog ex5PinReqs "2251" ex5PinCons

/-- Fixture: a 3-credit section of course CSD, listed first in the
catalog, so the course's credit value reads as 3. -/
def sec5Dsmall : Section :=
  { course := "CSD", crn := "99999", label := "S"
    meetings := [⟨.mon, 540, 600⟩], credits := 3 }

/-- Fixture: an 8-credit section of course CSD with the smaller time
spread and the smaller section id, so the scheduler prefers it. -/
def sec5Dbig : Section :=
  { course := "CSD", crn := "00001", label := "B"
    meetings := [⟨.tue, 540, 570⟩], credits := 8 }

/-- Fixture: a catalog where one course's sections carry different credit
values. -/
def ex5MixCatalog (c : String) : List Section :=
  if c = "CSD" then [sec5Dsmall, sec5Dbig] else []

/-- Fixture: CSD required, credits capped at 5 — a feasible in-bounds
assignment exists (the 3-credit section). -/
def ex5MixReqs : RequirementSet :=
  { required := ["CSD"], minCredits := 0, maxCredits := 5 }

/-- Fixture: the plan on the mixed-credit catalog. -/
def ex5MixPlan : SchedulePlan :=
  solveCore ex5MixCatalog ex5MixReqs "2251" {}

end Core

/-- Fixture: a frontend section whose day list uses a long day name and
whose times are HH:MM clock strings, as the calendar conversion expects. -/
def exSec6 : Api.Section :=
  { course := "CS0445", crn := "12345", «section» := "A"
    days := .list ["Monday"], start := "10:30", stop := "11:45", credits := 4 }

/-- Fixture: the calendar event the conversion produces for `exSec6`. -/
def exEv6 : Calendar.CalendarEvent :=
  { id := "12345-Monday", title := "CS0445 (A)", startTime := "10:30"
    endTime := "11:45", day := "Monday"
    startMinutes := Calendar.toMinutes "10:30"
    endMinutes := Calendar.toMinutes "11:45"
    duration := (Calendar.toMinutes "11:45" : Int) - (Calendar.toMinutes "10:30" : Int)
    crn := "12345" }

/-- Fixture: a frontend section with one unrecognized day name. -/
def exSec10 : Api.Section :=
  { course := "CS1501", crn := "54321", «section» := "B"
    days := .list ["Sat", "Mon"], start := "09:00", stop := "10:15"
    credits := 3 }

/-- Fixture: a frontend plan containing `exSec10`. -/
def exPlan10 : Api.SchedulePlan :=
  { term := "2251", totalCredits := 3, sections := [exSec10]
    explanations := [], alternatives := [] }

namespace Core

theorem conflicts_eq_false_iff {s t : Section} :
    s.conflicts t = false ↔ NonConflicting s t := by
  simp [Section.conflicts, NonConflicting, List.any_eq_false]

theorem conflictsAny_eq_false_iff {l : List Section} {s : Section} :
    conflictsAny l s = false ↔ ∀ t ∈ l, NonConflicting t s := by
  simp [conflictsAny, List.any_eq_false, conflicts_eq_false_iff]

theorem pairwise_append_single {l : List Section} {s : Section}
    (h : List.Pairwise NonConflicting l) (hs : conflictsAny l s = false) :
    List.Pairwise NonConflicting (l ++ [s]) := by
  rw [List.pairwise_append]
  refine ⟨h, List.pairwise_singleton _ _, ?_⟩
  intro t ht u hu
  rw [List.mem_singleton] at hu
  subst hu
  exact conflictsAny_eq_false_iff.mp hs t ht

theorem commitPins_pairwise (catalog : String → List Section) :
    ∀ (pins : List (String × String)) (init : List Section),
    List.Pairwise NonConflicting init →
    List.Pairwise NonConflicting (commitPins catalog pins init).1 := by
  intro pins
  induction pins with
  | nil => intro init h; simpa [commitPins] using h
  | cons p rest ih =>
    intro init h
    obtain ⟨c, crn⟩ := p
    simp only [commitPins]
    cases hfind : (catalog c).find? (fun s => s.crn == crn) with
    | none => exact ih init h
    | some s =>
      by_cases hc : conflictsAny init s = true
      · simp only [hc, if_true]
        exact ih init h
      · rw [Bool.not_eq_true] at hc
        simp only [hc, Bool.false_eq_true, if_false]
        exact ih (init ++ [s]) (pairwise_append_single h hc)

theorem pick_conflict_free {cons : Constraints} {committed cands : List Section}
    {s : Section} (h : pick cons committed cands = some s) :
    conflictsAny committed s = false := by
  have := List.find?_some h
  simpa using this

theorem schedule_pairwise (catalog : String → List Section) (cons : Constraints) :
    ∀ (cs : List String) (init : List Section),
    List.Pairwise NonConflicting init →
    List.Pairwise NonConflicting (schedule catalog cons cs init).1 := by
  intro cs
  induction cs with
  | nil => intro init h; simpa [schedule] using h
  | cons c rest ih =>
    intro init h
    simp only [schedule]
    cases hpick : pick cons init (catalog c) with
    | none => exact ih init h
    | some s =>
      exact ih (init ++ [s]) (pairwise_append_single h (pick_conflict_free hpick))

theorem solveParts_placed (catalog : String → List Section)
    (reqs : RequirementSet) (cons : Constraints) :
    (solveParts catalog reqs cons).placed =
      (schedule catalog cons
        ((planCourses reqs cons (creditOfCatalog catalog)).1.filter fun c =>
          !(((commitPins catalog cons.pins []).1.map Section.course).contains c))
        (commitPins catalog cons.pins []).1).1 := rfl

theorem solveCore_sections (catalog : String → List Section)
    (reqs : RequirementSet) (term : String) (cons : Constraints) :
    (solveCore catalog reqs term cons).sections =
      (solveParts catalog reqs cons).placed := rfl

theorem solveCore_pairwise (catalog : String → List Section)
    (reqs : RequirementSet) (term : String) (cons : Constraints) :
    List.Pairwise NonConflicting (solveCore catalog reqs term cons).sections := by
  rw [solveCore_sections, solveParts_placed]
  exact schedule_pairwise catalog cons _ _
    (commitPins_pairwise catalog cons.pins [] List.Pairwise.nil)

end Core

/-- Claim C1: for every SchedulePlan produced by Build or Optimize, no two
Meetings belonging to two different Sections of the plan occur on the same
day with overlapping [start,end) intervals, overlap being
`start_a < end_b && start_b < end_a`. -/
theorem c1_no_overlapping_meetings :
    (∀ provider catalog newSid school major term cons sid reqs plan,
      Core.Build provider catalog newSid school major term cons =
        .ok (sid, reqs, plan) →
      List.Pairwise Core.NonConflicting plan.sections) ∧
    (∀ store catalog sid delta plan,
      Core.Optimize store catalog sid delta = .ok plan →
      List.Pairwise Core.NonConflicting plan.sections) := by
  constructor
  · intro provider catalog newSid school major term cons sid reqs plan h
    unfold Core.Build at h
    cases hp : provider school major term with
    | none => rw [hp] at h; exact absurd h (by simp)
    | some r =>
      rw [hp] at h
      simp only [Except.ok.injEq, Prod.mk.injEq] at h
      obtain ⟨-, -, hplan⟩ := h
      subst hplan
      exact Core.solveCore_pairwise catalog r term cons
  · intro store catalog sid delta plan h
    unfold Core.Optimize at h
    cases hs : store sid with
    | none => rw [hs] at h; exact absurd h (by simp)
    | some st =>
      rw [hs] at h
      simp only [Except.ok.injEq] at h
      subst h
      exact Core.solveCore_pairwise catalog st.reqs st.lastPlan.term
        (Core.mergeConstraints st.cons delta)

/-- Witness for C1: the concrete two-course build and an optimize on the
stored session both yield pairwise non-overlapping plans. -/
theorem c1_no_overlapping_meetings_witness :
    List.Pairwise Core.NonConflicting
      (Core.solveCore Core.wCatalog Core.wReqs "2251" Core.wCons).sections ∧
    List.Pairwise Core.NonConflicting
      (Core.solveCore Core.wCatalog Core.wState.reqs Core.wState.lastPlan.term
        (Core.mergeConstraints Core.wState.cons {})).sections :=
  ⟨c1_no_overlapping_meetings.1 Core.wProvider Core.wCatalog "s1" "Pitt"
      "Computer Science" "2251" Core.wCons "s1" Core.wReqs _ rfl,
    c1_no_overlapping_meetings.2 Core.wStore Core.wCatalog "s1" {} _ rfl⟩

/-- Counterexample to C2: the frontend `RequirementSet` interface does not
carry exactly the stable field names listed — it also declares an optional
`catalogYear` field. -/
theorem c2_exact_fields_counterexample :
    Api.requirementSetFields ≠ Api.specStableRequirementFields ∧
    "catalogYear" ∈ Api.requirementSetFields ∧
    "catalogYear" ∉ Api.specStableRequirementFields := by
  refine ⟨by decide, by decide, by decide⟩

/-- Claim C2 (amended): Build returns a session id, the RequirementSet and
the SchedulePlan (`session_id`, `requirements`, `plan`); the SchedulePlan
carries exactly the stable field names term, totalCredits, sections,
explanations, alternatives; the RequirementSet carries all the stable
field names required, genEds, chooseFrom, minCredits, maxCredits, prereqs,
multiSemesterPrereqs plus one optional `catalogYear` field. -/
theorem c2_stable_field_names :
    Api.buildScheduleResponseFields = ["session_id", "requirements", "plan"] ∧
    Api.schedulePlanFields = Api.specStablePlanFields ∧
    Api.requirementSetFields = "catalogYear" :: Api.specStableRequirementFields := by
  refine ⟨rfl, rfl, rfl⟩

namespace Core

theorem solveCore_explanations (catalog : String → List Section)
    (reqs : RequirementSet) (term : String) (cons : Constraints) :
    (solveCore catalog reqs term cons).explanations =
      (solveParts catalog reqs cons).notes
        ++ (solveParts catalog reqs cons).invalidPins.map pinInvalidatedMsg
        ++ (solveParts catalog reqs cons).unassigned.map unassignedMsg
        ++ (if (solveCore catalog reqs term cons).totalCredits < reqs.minCredits
            then [shortfallMsg (solveCore catalog reqs term cons).totalCredits
              reqs.minCredits] else [])
        ++ (if reqs.maxCredits < (solveCore catalog reqs term cons).totalCredits
            then [exceedMsg (solveCore catalog reqs term cons).totalCredits
              reqs.maxCredits] else []) := rfl

theorem unassigned_explained (catalog : String → List Section)
    (reqs : RequirementSet) (term : String) (cons : Constraints) :
    ∀ c ∈ (solveParts catalog reqs cons).unassigned,
      unassignedMsg c ∈ (solveCore catalog reqs term cons).explanations := by
  intro c hc
  rw [solveCore_explanations]
  refine List.mem_append_left _ (List.mem_append_left _ ?_)
  exact List.mem_append_right _ (List.mem_map_of_mem unassignedMsg hc)

end Core

/-- Claim C3: an Optimize call fails hard exactly when the session id is
unknown or expired (and the error is SessionNotFound); whenever the
session is found, a SchedulePlan is always returned, with every
unassignable course recovered into an explanation string rather than a
thrown failure. -/
theorem c3_optimize_error_surface :
    ∀ (store : String → Option Core.SessionState)
      (catalog : String → List Core.Section) (sid : String)
      (delta : Core.Constraints),
    (Core.Optimize store catalog sid delta = .error .SessionNotFound ↔
      store sid = none) ∧
    (∀ e, Core.Optimize store catalog sid delta = .error e →
      e = .SessionNotFound) ∧
    (∀ st, store sid = some st →
      Core.Optimize store catalog sid delta =
        .ok (Core.solveCore catalog st.reqs st.lastPlan.term
          (Core.mergeConstraints st.cons delta)) ∧
      ∀ c ∈ (Core.solveParts catalog st.reqs
          (Core.mergeConstraints st.cons delta)).unassigned,
        Core.unassignedMsg c ∈
          (Core.solveCore catalog st.reqs st.lastPlan.term
            (Core.mergeConstraints st.cons delta)).explanations) := by
  intro store catalog sid delta
  refine ⟨?_, ?_, ?_⟩
  · unfold Core.Optimize
    cases hs : store sid <;> simp
  · intro e he
    unfold Core.Optimize at he
    cases hs : store sid <;> rw [hs] at he <;> simp_all
  · intro st hst
    unfold Core.Optimize
    rw [hst]
    exact ⟨rfl, Core.unassigned_explained catalog st.reqs st.lastPlan.term
      (Core.mergeConstraints st.cons delta)⟩

/-- Witness for C3: on the concrete store, an unknown session id is
rejected with SessionNotFound while the known session id "s1" yields a
plan. -/
theorem c3_optimize_error_surface_witness :
    Core.Optimize Core.wStore Core.wCatalog "nope" {} =
      .error .SessionNotFound ∧
    Core.Optimize Core.wStore Core.wCatalog "s1" {} =
      .ok (Core.solveCore Core.wCatalog Core.wState.reqs
        Core.wState.lastPlan.term
        (Core.mergeConstraints Core.wState.cons {})) :=
  ⟨(c3_optimize_error_surface Core.wStore Core.wCatalog "nope" {}).1.mpr rfl,
    ((c3_optimize_error_surface Core.wStore Core.wCatalog "s1" {}).2.2
      Core.wState rfl).1⟩

namespace Core

theorem find?_filter_keep (p keep : α → Bool) :
    ∀ (l : List α) (a : α), l.find? p = some a →
    (∀ x, p x = true → keep x = true) →
    (l.filter keep).find? p = some a := by
  intro l
  induction l with
  | nil => intro a h _; simp at h
  | cons b t ih =>
    intro a h hk
    rw [List.find?_cons] at h
    rw [List.filter_cons]
    cases hpb : p b with
    | true =>
      simp only [hpb] at h
      rw [hk b hpb]
      simp only [if_true]
      rw [List.find?_cons, hpb]
      exact h
    | false =>
      simp only [hpb] at h
      cases hkb : keep b with
      | true =>
        simp only [if_true]
        rw [List.find?_cons, hpb]
        exact ih a h hk
      | false =>
        simp only [Bool.false_eq_true, if_false]
        exact ih a h hk

theorem pinLookup_merge {cum delta : Constraints} {c crn : String}
    (h : pinLookup cum.pins c = some crn)
    (hdp : ∀ p ∈ delta.pins, p.1 ≠ c)
    (hdu : c ∉ delta.unpins) :
    pinLookup (mergeConstraints cum delta).pins c = some crn := by
  have hdelta : delta.pins.find? (fun p => p.1 == c) = none := by
    rw [List.find?_eq_none]
    intro q hq
    simpa using hdp q hq
  obtain ⟨e, he, hmap⟩ : ∃ e, cum.pins.find? (fun p => p.1 == c) = some e ∧
      e.2 = crn := by
    unfold pinLookup at h
    cases hf : cum.pins.find? (fun p => p.1 == c) with
    | none => rw [hf] at h; simp at h
    | some e => rw [hf] at h; exact ⟨e, rfl, by simpa using h⟩
  have hkeep : ∀ x : String × String, (x.1 == c) = true →
      (delta.pins.all (fun q => q.1 != x.1) && !(delta.unpins.contains x.1)) = true := by
    intro x hx
    have hx' : x.1 = c := by simpa using hx
    rw [hx']
    rw [Bool.and_eq_true]
    refine ⟨List.all_eq_true.mpr ?_, ?_⟩
    · intro q hq
      simpa using hdp q hq
    · simpa using hdu
  show pinLookup (delta.pins ++ cum.pins.filter _) c = some crn
  unfold pinLookup
  rw [List.find?_append, hdelta, Option.none_or]
  rw [find?_filter_keep _ _ cum.pins e he hkeep]
  simpa using hmap

theorem commitPins_mono (catalog : String → List Section) :
    ∀ (pins : List (String × String)) (init : List Section) (x : Section),
    x ∈ init → x ∈ (commitPins catalog pins init).1 := by
  intro pins
  induction pins with
  | nil => intro init x hx; simpa [commitPins] using hx
  | cons p rest ih =>
    intro init x hx
    obtain ⟨c, crn⟩ := p
    simp only [commitPins]
    cases hfind : (catalog c).find? (fun s => s.crn == crn) with
    | none => exact ih init x hx
    | some s =>
      by_cases hc : conflictsAny init s = true
      · simp only [hc, if_true]
        exact ih init x hx
      · rw [Bool.not_eq_true] at hc
        simp only [hc, Bool.false_eq_true, if_false]
        exact ih (init ++ [s]) x (List.mem_append_left _ hx)

theorem commitPins_pin (catalog : String → List Section) (c crn : String) :
    ∀ (pins : List (String × String)) (init : List Section),
    pinLookup pins c = some crn →
    (∃ s, s ∈ (commitPins catalog pins init).1 ∧ s ∈ catalog c ∧ s.crn = crn) ∨
      c ∈ (commitPins catalog pins init).2 := by
  intro pins
  induction pins with
  | nil => intro init h; simp [pinLookup] at h
  | cons p rest ih =>
    intro init h
    obtain ⟨c0, r0⟩ := p
    unfold pinLookup at h
    rw [List.find?_cons] at h
    by_cases hc : ((c0, r0).1 == c) = true
    · simp only [hc] at h
      have hc0 : c0 = c := by simpa using hc
      have hr0 : r0 = crn := by simpa using h
      subst hc0
      subst hr0
      simp only [commitPins]
      cases hfind : (catalog c0).find? (fun s => s.crn == r0) with
      | none =>
        right
        exact List.mem_cons_self _ _
      | some s =>
        have hsmem := List.mem_of_find?_eq_some hfind
        have hscrn : s.crn = r0 := by
          have := List.find?_some hfind
          simpa using this
        by_cases hcf : conflictsAny init s = true
        · right
          simp only [hcf, if_true]
          exact List.mem_cons_self _ _
        · rw [Bool.not_eq_true] at hcf
          simp only [hcf, Bool.false_eq_true, if_false]
          left
          refine ⟨s, ?_, hsmem, hscrn⟩
          exact commitPins_mono catalog rest (init ++ [s]) s
            (List.mem_append_right _ (List.mem_singleton_self s))
    · rw [Bool.not_eq_true] at hc
      simp only [hc] at h
      have h' : pinLookup rest c = some crn := h
      simp only [commitPins]
      cases hfind : (catalog c0).find? (fun s => s.crn == r0) with
      | none =>
        rcases ih init h' with hl | hr
        · exact Or.inl hl
        · exact Or.inr (List.mem_cons_of_mem _ hr)
      | some s =>
        by_cases hcf : conflictsAny init s = true
        · simp only [hcf, if_true]
          rcases ih init h' with hl | hr
          · exact Or.inl hl
          · exact Or.inr (List.mem_cons_of_mem _ hr)
        · rw [Bool.not_eq_true] at hcf
          simp only [hcf, Bool.false_eq_true, if_false]
          exact ih (init ++ [s]) h'

theorem schedule_mono (catalog : String → List Section) (cons : Constraints) :
    ∀ (cs : List String) (init : List Section) (x : Section),
    x ∈ init → x ∈ (schedule catalog cons cs init).1 := by
  intro cs
  induction cs with
  | nil => intro init x hx; simpa [schedule] using hx
  | cons c rest ih =>
    intro init x hx
    simp only [schedule]
    cases hpick : pick cons init (catalog c) with
    | none => exact ih init x hx
    | some s => exact ih (init ++ [s]) x (List.mem_append_left _ hx)

theorem solveParts_pinned (catalog : String → List Section)
    (reqs : RequirementSet) (cons : Constraints) :
    (solveParts catalog reqs cons).pinned =
      (commitPins catalog cons.pins []).1 := rfl

theorem solveParts_invalidPins (catalog : String → List Section)
    (reqs : RequirementSet) (cons : Constraints) :
    (solveParts catalog reqs cons).invalidPins =
      (commitPins catalog cons.pins []).2 := rfl

theorem pinned_in_sections (catalog : String → List Section)
    (reqs : RequirementSet) (term : String) (cons : Constraints) :
    ∀ s ∈ (solveParts catalog reqs cons).pinned,
      s ∈ (solveCore catalog reqs term cons).sections := by
  intro s hs
  rw [solveParts_pinned] at hs
  rw [solveCore_sections, solveParts_placed]
  exact schedule_mono catalog cons _ _ s hs

theorem invalidPin_explained (catalog : String → List Section)
    (reqs : RequirementSet) (term : String) (cons : Constraints) :
    ∀ c ∈ (solveParts catalog reqs cons).invalidPins,
      pinInvalidatedMsg c ∈ (solveCore catalog reqs term cons).explanations := by
  intro c hc
  rw [solveCore_explanations]
  refine List.mem_append_left _ (List.mem_append_left _ (List.mem_append_left _ ?_))
  exact List.mem_append_right _ (List.mem_map_of_mem pinInvalidatedMsg hc)

end Core

/-- Claim C4: pinning is stable across solves — for a stored session whose
cumulative constraints pin a course to a section, an Optimize call whose
delta contains no pin or unpin directive for that course yields a plan
that still assigns the pinned catalog section to the course, unless the
pin is invalid, in which case a PinInvalidated explanation is reported
rather than the pin being silently dropped. -/
theorem c4_pin_stability :
    ∀ (store : String → Option Core.SessionState)
      (catalog : String → List Core.Section) (sid : String)
      (st : Core.SessionState) (delta : Core.Constraints) (c crn : String),
    store sid = some st →
    Core.pinLookup st.cons.pins c = some crn →
    (∀ p ∈ delta.pins, p.1 ≠ c) →
    c ∉ delta.unpins →
    ∃ plan, Core.Optimize store catalog sid delta = .ok plan ∧
      ((∃ s, s ∈ plan.sections ∧ s ∈ catalog c ∧ s.crn = crn) ∨
        Core.pinInvalidatedMsg c ∈ plan.explanations) := by
  intro store catalog sid st delta c crn hst hpin hdp hdu
  refine ⟨Core.solveCore catalog st.reqs st.lastPlan.term
    (Core.mergeConstraints st.cons delta), ?_, ?_⟩
  · unfold Core.Optimize
    rw [hst]
  · have hm : Core.pinLookup (Core.mergeConstraints st.cons delta).pins c =
        some crn := Core.pinLookup_merge hpin hdp hdu
    rcases Core.commitPins_pin catalog c crn
        (Core.mergeConstraints st.cons delta).pins [] hm with ⟨s, hs1, hs2, hs3⟩ | hinv
    · left
      refine ⟨s, ?_, hs2, hs3⟩
      apply Core.pinned_in_sections
      rw [Core.solveParts_pinned]
      exact hs1
    · right
      apply Core.invalidPin_explained
      rw [Core.solveParts_invalidPins]
      exact hinv

/-- Witness for C4: on the stored session "s1" pinning CS0445 to section
11111, an Optimize with an empty delta keeps the pinned section or reports
its invalidation. -/
theorem c4_pin_stability_witness :
    ∃ plan, Core.Optimize Core.wStore Core.wCatalog "s1" {} = .ok plan ∧
      ((∃ s, s ∈ plan.sections ∧ s ∈ Core.wCatalog "CS0445" ∧
          s.crn = "11111") ∨
        Core.pinInvalidatedMsg "CS0445" ∈ plan.explanations) :=
  c4_pin_stability Core.wStore Core.wCatalog "s1" Core.wState {}
    "CS0445" "11111" rfl rfl (by simp) (by simp)

namespace Core

theorem mem_insertBy {le : α → α → Bool} {a x : α} :
    ∀ {l : List α}, x ∈ insertBy le a l → x = a ∨ x ∈ l := by
  intro l
  induction l with
  | nil => intro h; simp [insertBy] at h; exact Or.inl h
  | cons b bs ih =>
    intro h
    simp only [insertBy] at h
    by_cases hle : le a b = true
    · rw [if_pos hle] at h
      rcases List.mem_cons.mp h with h1 | h2
      · exact Or.inl h1
      · exact Or.inr h2
    · rw [if_neg hle] at h
      rcases List.mem_cons.mp h with h1 | h2
      · exact Or.inr (h1 ▸ List.mem_cons_self b bs)
      · rcases ih h2 with h3 | h4
        · exact Or.inl h3
        · exact Or.inr (List.mem_cons_of_mem b h4)

theorem mem_sortBy {le : α → α → Bool} :
    ∀ {l : List α} {x : α}, x ∈ sortBy le l → x ∈ l := by
  intro l
  induction l with
  | nil => intro x h; simp [sortBy] at h
  | cons a as ih =>
    intro x h
    simp only [sortBy] at h
    rcases mem_insertBy h with h1 | h2
    · exact h1 ▸ List.mem_cons_self a as
    · exact List.mem_cons_of_mem a (ih h2)

theorem hardFilter_subset {cons : Constraints} {l : List Section} {x : Section}
    (h : x ∈ hardFilter cons l) : x ∈ l := by
  simp only [hardFilter] at h
  split at h
  · exact h
  · exact (List.mem_filter.mp h).1

theorem pick_mem {cons : Constraints} {committed cands : List Section}
    {s : Section} (h : pick cons committed cands = some s) : s ∈ cands :=
  hardFilter_subset (mem_sortBy (List.mem_of_find?_eq_some h))

theorem selectFrom_le (pins : List (String × String)) (creditOf : String → Nat)
    (maxC : Nat) :
    ∀ (need total : Nat) (cands : List String), total ≤ maxC →
    (selectFrom pins creditOf maxC need total cands).2 ≤ maxC := by
  intro need
  induction need with
  | zero => intro total cands h; simpa [selectFrom] using h
  | succ n ih =>
    intro total cands h
    simp only [selectFrom]
    cases hf : (sortBy (coursePriorityLe pins (maxC - total) creditOf) cands).find?
        (fun c => decide (total + creditOf c ≤ maxC)) with
    | none => simpa using h
    | some c =>
      have hc : total + creditOf c ≤ maxC := by
        have := List.find?_some hf
        simpa using this
      exact ih (total + creditOf c) (cands.erase c) hc

theorem selectFrom_sum (pins : List (String × String)) (creditOf : String → Nat)
    (maxC : Nat) :
    ∀ (need total : Nat) (cands : List String),
    (selectFrom pins creditOf maxC need total cands).2 =
      total + ((selectFrom pins creditOf maxC need total cands).1.map creditOf).sum := by
  intro need
  induction need with
  | zero => intro total cands; simp [selectFrom]
  | succ n ih =>
    intro total cands
    simp only [selectFrom]
    cases hf : (sortBy (coursePriorityLe pins (maxC - total) creditOf) cands).find?
        (fun c => decide (total + creditOf c ≤ maxC)) with
    | none => simp
    | some c =>
      have := ih (total + creditOf c) (cands.erase c)
      simp only [List.map_cons, List.sum_cons]
      omega

theorem planGroups_le (pins : List (String × String)) (creditOf : String → Nat)
    (maxC : Nat) (skips : List String) (msEx : String → Bool) :
    ∀ (gs : List ChooseFrom) (total : Nat) (already : List String),
    total ≤ maxC →
    (planGroups pins creditOf maxC skips msEx gs total already).2 ≤ maxC := by
  intro gs
  induction gs with
  | nil => intro total already h; simpa [planGroups] using h
  | cons g rest ih =>
    intro total already h
    simp only [planGroups]
    exact ih _ _ (selectFrom_le pins creditOf maxC g.count total _ h)

theorem planGroups_sum (pins : List (String × String)) (creditOf : String → Nat)
    (maxC : Nat) (skips : List String) (msEx : String → Bool) :
    ∀ (gs : List ChooseFrom) (total : Nat) (already : List String),
    (planGroups pins creditOf maxC skips msEx gs total already).2 =
      total + ((planGroups pins creditOf maxC skips msEx gs total already).1.map
        creditOf).sum := by
  intro gs
  induction gs with
  | nil => intro total already; simp [planGroups]
  | cons g rest ih =>
    intro total already
    simp only [planGroups, List.map_append, List.sum_append]
    have h1 := selectFrom_sum pins creditOf maxC g.count total
      (g.options.filter fun c =>
        !(already.contains c) && !(skips.contains c) && !(msEx c))
    have h2 := ih (selectFrom pins creditOf maxC g.count total
      (g.options.filter fun c =>
        !(already.contains c) && !(skips.contains c) && !(msEx c))).2
      (already ++ (selectFrom pins creditOf maxC g.count total
        (g.options.filter fun c =>
          !(already.contains c) && !(skips.contains c) && !(msEx c))).1)
    omega

theorem planCourses_fst (reqs : RequirementSet) (cons : Constraints)
    (creditOf : String → Nat) :
    (planCourses reqs cons creditOf).1 =
      requiredKept reqs cons ++
        (planGroups cons.pins creditOf reqs.maxCredits cons.skips
          (fun c => reqs.multiSemesterPrereqs.any fun p => p.1 == c)
          (reqs.genEds ++ reqs.chooseFrom)
          (((requiredKept reqs cons).map creditOf).sum)
          (requiredKept reqs cons)).1 := rfl

theorem planCourses_snd (reqs : RequirementSet) (cons : Constraints)
    (creditOf : String → Nat) :
    (planCourses reqs cons creditOf).2.1 =
      (planGroups cons.pins creditOf reqs.maxCredits cons.skips
        (fun c => reqs.multiSemesterPrereqs.any fun p => p.1 == c)
        (reqs.genEds ++ reqs.chooseFrom)
        (((requiredKept reqs cons).map creditOf).sum)
        (requiredKept reqs cons)).2 := rfl

theorem planCourses_total (reqs : RequirementSet) (cons : Constraints)
    (creditOf : String → Nat) :
    (planCourses reqs cons creditOf).2.1 =
      ((planCourses reqs cons creditOf).1.map creditOf).sum := by
  rw [planCourses_fst, planCourses_snd, List.map_append, List.sum_append]
  exact planGroups_sum cons.pins creditOf reqs.maxCredits cons.skips _ _ _ _

theorem planCourses_le (reqs : RequirementSet) (cons : Constraints)
    (creditOf : String → Nat)
    (h : ((requiredKept reqs cons).map creditOf).sum ≤ reqs.maxCredits) :
    (planCourses reqs cons creditOf).2.1 ≤ reqs.maxCredits := by
  rw [planCourses_snd]
  exact planGroups_le cons.pins creditOf reqs.maxCredits cons.skips _ _ _ _ h

theorem schedule_credits_le (catalog : String → List Section)
    (cons : Constraints) (creditOf : String → Nat) :
    ∀ (cs : List String) (init : List Section),
    (∀ c ∈ cs, ∀ s ∈ catalog c, s.credits = creditOf c) →
    ((schedule catalog cons cs init).1.map Section.credits).sum ≤
      (init.map Section.credits).sum + (cs.map creditOf).sum := by
  intro cs
  induction cs with
  | nil => intro init _; simp [schedule]
  | cons c rest ih =>
    intro init hc
    simp only [schedule]
    cases hpick : pick cons init (catalog c) with
    | none =>
      have := ih init (fun d hd => hc d (List.mem_cons_of_mem c hd))
      simp only [List.map_cons, List.sum_cons]
      omega
    | some s =>
      have hcred : s.credits = creditOf c :=
        hc c (List.mem_cons_self c rest) s (pick_mem hpick)
      have := ih (init ++ [s]) (fun d hd => hc d (List.mem_cons_of_mem c hd))
      simp only [List.map_append, List.sum_append, List.map_cons, List.sum_cons,
        List.map_nil, List.sum_nil] at this ⊢
      omega

theorem solveCore_totalCredits (catalog : String → List Section)
    (reqs : RequirementSet) (term : String) (cons : Constraints) :
    (solveCore catalog reqs term cons).totalCredits =
      ((solveParts catalog reqs cons).placed.map Section.credits).sum := rfl

end Core

/-- Counterexample to C5, in four concrete scenarios. (1) A choose-2 group
over a 6-credit and two 5-credit electives with bounds [10,10]: a feasible
assignment reaching the bounds exists (the two 5-credit courses, total
10), yet the plan totals 6 — below minCredits and not the nearest
achievable total — with the shortfall explained. (2) A required course
whose catalog lists a 3-credit and an 8-credit section under a 5-credit
cap: a feasible in-bounds assignment exists (the 3-credit section), yet
the scheduler's priority order picks the 8-credit one and the total
exceeds maxCredits, with the excess explained — this scenario satisfies
the no-pins and required-fit conditions and fails only section/course
credit agreement. (3) A pinned 6-credit section under a 5-credit cap
pushes the total past maxCredits. (4) Required courses alone exceeding
maxCredits push the total past it. -/
theorem c5_credit_bounds_counterexample :
    (Core.feasiblePlanB Core.ex5Catalog Core.ex5Reqs
        [Core.sec5B, Core.sec5C] = true ∧
      ([Core.sec5B, Core.sec5C].map Core.Section.credits).sum = 10 ∧
      Core.ex5Plan.totalCredits = 6 ∧
      Core.ex5Plan.totalCredits < Core.ex5Reqs.minCredits ∧
      Core.shortfallMsg 6 10 ∈ Core.ex5Plan.explanations) ∧
    (Core.feasiblePlanB Core.ex5MixCatalog Core.ex5MixReqs
        [Core.sec5Dsmall] = true ∧
      Core.ex5MixPlan.totalCredits = 8 ∧
      Core.ex5MixReqs.maxCredits < Core.ex5MixPlan.totalCredits ∧
      ((Core.requiredKept Core.ex5MixReqs {}).map
        (Core.creditOfCatalog Core.ex5MixCatalog)).sum ≤
        Core.ex5MixReqs.maxCredits ∧
      Core.sec5Dbig ∈ Core.ex5MixCatalog "CSD" ∧
      Core.sec5Dbig.credits ≠ Core.creditOfCatalog Core.ex5MixCatalog "CSD" ∧
      Core.exceedMsg 8 5 ∈ Core.ex5MixPlan.explanations) ∧
    (Core.ex5PinCons.pins ≠ [] ∧
      Core.ex5PinPlan.totalCredits = 6 ∧
      Core.ex5PinReqs.maxCredits < Core.ex5PinPlan.totalCredits ∧
      Core.exceedMsg 6 5 ∈ Core.ex5PinPlan.explanations) ∧
    (Core.ex5ReqPlan.totalCredits = 6 ∧
      Core.ex5ReqReqs.maxCredits < Core.ex5ReqPlan.totalCredits ∧
      ¬ ((Core.requiredKept Core.ex5ReqReqs {}).map
        (Core.creditOfCatalog Core.ex5Catalog)).sum ≤
        Core.ex5ReqReqs.maxCredits ∧
      Core.exceedMsg 6 5 ∈ Core.ex5ReqPlan.explanations) := by
  refine ⟨⟨by decide, by decide, by decide, by decide, by decide⟩,
    ⟨by decide, by decide, by decide, by decide, ?_, by decide, by decide⟩,
    ⟨by decide, by decide, by decide, by decide⟩,
    ⟨by decide, by decide, by decide, by decide⟩⟩
  rw [show Core.ex5MixCatalog "CSD" = [Core.sec5Dsmall, Core.sec5Dbig] from rfl]
  exact List.mem_cons_of_mem _ (List.mem_singleton_self _)

/-- Claim C5 (amended): the plan's credit total is the greedy best-found
total of the §4.1 selection, not necessarily the nearest achievable one;
whenever the total violates a credit bound the explanations report it and
name the violated bound — the shortfall below minCredits or the excess
above maxCredits; and in a solve without pins, whenever the kept required
courses fit under maxCredits and every catalog section's credits agree
with its course's credit value, the total never exceeds maxCredits. The
total can fall below minCredits, or (when a course's sections carry
different credit values) exceed maxCredits, even when a feasible
assignment within the bounds exists. -/
theorem c5_credit_bounds_amended :
    ∀ (catalog : String → List Core.Section) (reqs : Core.RequirementSet)
      (term : String) (cons : Core.Constraints),
    ((Core.solveCore catalog reqs term cons).totalCredits < reqs.minCredits →
      Core.shortfallMsg (Core.solveCore catalog reqs term cons).totalCredits
        reqs.minCredits ∈
        (Core.solveCore catalog reqs term cons).explanations) ∧
    (reqs.maxCredits < (Core.solveCore catalog reqs term cons).totalCredits →
      Core.exceedMsg (Core.solveCore catalog reqs term cons).totalCredits
        reqs.maxCredits ∈
        (Core.solveCore catalog reqs term cons).explanations) ∧
    (cons.pins = [] →
      (∀ c ∈ (Core.planCourses reqs cons (Core.creditOfCatalog catalog)).1,
        ∀ s ∈ catalog c, s.credits = Core.creditOfCatalog catalog c) →
      ((Core.requiredKept reqs cons).map (Core.creditOfCatalog catalog)).sum ≤
        reqs.maxCredits →
      (Core.solveCore catalog reqs term cons).totalCredits ≤
        reqs.maxCredits) := by
  intro catalog reqs term cons
  refine ⟨?_, ?_, ?_⟩
  · intro hlt
    rw [Core.solveCore_explanations, if_pos hlt]
    refine List.mem_append_left _ (List.mem_append_right _ ?_)
    exact List.mem_singleton_self _
  · intro hgt
    rw [Core.solveCore_explanations, if_pos hgt]
    exact List.mem_append_right _ (List.mem_singleton_self _)
  · intro hpins hcred hreq
    rw [Core.solveCore_totalCredits, Core.solveParts_placed, hpins]
    have hcp : (Core.commitPins catalog [] ([] : List Core.Section)).1 = [] := rfl
    rw [hcp]
    have hrem : ((Core.planCourses reqs cons (Core.creditOfCatalog catalog)).1.filter
        fun c => !((([] : List Core.Section).map Core.Section.course).contains c)) =
        (Core.planCourses reqs cons (Core.creditOfCatalog catalog)).1 :=
      List.filter_eq_self.mpr fun a _ => rfl
    rw [hrem]
    have h1 := Core.schedule_credits_le catalog cons (Core.creditOfCatalog catalog)
      (Core.planCourses reqs cons (Core.creditOfCatalog catalog)).1 [] hcred
    have h2 := Core.planCourses_total reqs cons (Core.creditOfCatalog catalog)
    have h3 := Core.planCourses_le reqs cons (Core.creditOfCatalog catalog) hreq
    simp only [List.map_nil, List.sum_nil] at h1
    omega

/-- Witness for C5 (amended): the elective scenario reports its shortfall
and stays under maxCredits; the oversized-required scenario reports its
excess. -/
theorem c5_credit_bounds_amended_witness :
    Core.shortfallMsg Core.ex5Plan.totalCredits Core.ex5Reqs.minCredits ∈
      Core.ex5Plan.explanations ∧
    Core.exceedMsg Core.ex5ReqPlan.totalCredits Core.ex5ReqReqs.maxCredits ∈
      Core.ex5ReqPlan.explanations ∧
    Core.ex5Plan.totalCredits ≤ Core.ex5Reqs.maxCredits := by
  refine ⟨(c5_credit_bounds_amended Core.ex5Catalog Core.ex5Reqs "2251" {}).1
      (by decide),
    (c5_credit_bounds_amended Core.ex5Catalog Core.ex5ReqReqs "2251" {}).2.1
      (by decide),
    (c5_credit_bounds_amended Core.ex5Catalog Core.ex5Reqs "2251" {}).2.2
      rfl ?_ (by decide)⟩
  intro c hc s hs
  have hp : (Core.planCourses Core.ex5Reqs {}
      (Core.creditOfCatalog Core.ex5Catalog)).1 = ["CSA"] := rfl
  rw [hp] at hc
  simp only [List.mem_singleton] at hc
  subst hc
  have hcat : Core.ex5Catalog "CSA" = [Core.sec5A] := rfl
  rw [hcat] at hs
  simp only [List.mem_singleton] at hs
  subst hs
  rfl

namespace Calendar

theorem dayMapping_recognized (d : String) :
    dayMapping d ≠ none ↔ d ∈ recognizedDays := by
  unfold dayMapping
  split <;> simp_all [recognizedDays]

theorem mem_sectionEvents {s : Api.Section} {e : CalendarEvent}
    (h : e ∈ sectionEvents s) :
    ∃ d ∈ dayListOf s.days, dayMapping d ≠ none ∧ e.day = d ∧
      e.startMinutes = toMinutes s.start ∧ e.endMinutes = toMinutes s.stop := by
  unfold sectionEvents at h
  rcases List.mem_filterMap.mp h with ⟨d, hd, hfd⟩
  refine ⟨d, hd, ?_⟩
  cases hmap : dayMapping d with
  | none => simp [hmap] at hfd
  | some k =>
    simp only [hmap, Option.some.injEq] at hfd
    subst hfd
    exact ⟨by simp [hmap], rfl, rfl, rfl⟩

end Calendar

/-- Counterexample to C6: the calendar conversion accepts and converts a
section whose day is the string "Monday" and whose times are the clock
strings "10:30"/"11:45" — a representation that is neither a day among
Mon–Fri short names nor minute-of-day integers, refuting the claimed
boundary representation. -/
theorem c6_meeting_rep_counterexample :
    Calendar.sectionEvents exSec6 ≠ [] ∧
    Calendar.specMeetingRep exSec6 = false := by
  constructor
  · rw [show Calendar.sectionEvents exSec6 = [exEv6] from rfl]
    simp
  · rfl

/-- Claim C6 (amended): meetings cross the boundary as day-name strings —
exactly the names Mon/Monday through Fri/Friday are recognized — together
with start and end clock strings; the calendar conversion derives the
minute-of-day integers, and every produced event carries a recognized day
and the derived start/end minutes. -/
theorem c6_meeting_rep_amended :
    (∀ d, Calendar.dayMapping d ≠ none ↔ d ∈ Calendar.recognizedDays) ∧
    (∀ s : Api.Section, ∀ e ∈ Calendar.sectionEvents s,
      e.day ∈ Calendar.recognizedDays ∧
      e.startMinutes = Calendar.toMinutes s.start ∧
      e.endMinutes = Calendar.toMinutes s.stop) := by
  refine ⟨Calendar.dayMapping_recognized, ?_⟩
  intro s e he
  rcases Calendar.mem_sectionEvents he with ⟨d, hd, hne, hday, h1, h2⟩
  exact ⟨hday ▸ (Calendar.dayMapping_recognized d).mp hne, h1, h2⟩

/-- Witness for C6 (amended): the event built from the concrete section
carries the recognized day "Monday" and the minutes derived from its clock
strings. -/
theorem c6_meeting_rep_amended_witness :
    exEv6.day ∈ Calendar.recognizedDays ∧
    exEv6.startMinutes = Calendar.toMinutes exSec6.start ∧
    exEv6.endMinutes = Calendar.toMinutes exSec6.stop :=
  c6_meeting_rep_amended.2 exSec6 exEv6
    (by rw [show Calendar.sectionEvents exSec6 = [exEv6] from rfl]
        exact List.mem_singleton_self _)

/-- Claim C7: the core solver operates only on the structured Constraints
type and never receives raw utterance text — every transport-level Build
and Optimize invocation factors through the PreferenceParser conversion of
the utterance into Constraints before the core runs. -/
theorem c7_parse_before_core :
    ∀ (parse : String → Core.Constraints)
      (provider : String → String → String → Option Core.RequirementSet)
      (catalog : String → List Core.Section)
      (store : String → Option Core.SessionState)
      (newSid school major term utterance sid utterance2 : String),
    Core.BuildFromUtterance parse provider catalog newSid school major term
        utterance =
      Core.Build provider catalog newSid school major term (parse utterance) ∧
    Core.OptimizeFromUtterance parse store catalog sid utterance2 =
      Core.Optimize store catalog sid (parse utterance2) :=
  fun _ _ _ _ _ _ _ _ _ _ _ => ⟨rfl, rfl⟩

namespace Core

theorem lexLe_total : ∀ a b : List Char, lexLe a b = true ∨ lexLe b a = true := by
  intro a
  induction a with
  | nil => intro b; exact Or.inl rfl
  | cons x xs ih =>
    intro b
    cases b with
    | nil => exact Or.inr rfl
    | cons y ys =>
      simp only [lexLe]
      rcases lt_trichotomy x y with h | h | h
      · left
        rw [if_pos h]
      · subst h
        simp only [if_neg (lt_irrefl x)]
        exact ih ys
      · right
        rw [if_pos h]

theorem lexLe_antisymm : ∀ a b : List Char,
    lexLe a b = true → lexLe b a = true → a = b := by
  intro a
  induction a with
  | nil =>
    intro b h1 h2
    cases b with
    | nil => rfl
    | cons y ys => simp [lexLe] at h2
  | cons x xs ih =>
    intro b h1 h2
    cases b with
    | nil => simp [lexLe] at h1
    | cons y ys =>
      simp only [lexLe] at h1 h2
      rcases lt_trichotomy x y with h | h | h
      · rw [if_neg (asymm h), if_pos h] at h2
        simp at h2
      · subst h
        simp only [if_neg (lt_irrefl x)] at h1 h2
        rw [ih ys h1 h2]
      · rw [if_neg (asymm h), if_pos h] at h1
        simp at h1

theorem strLe_total (c d : String) : strLe c d = true ∨ strLe d c = true :=
  lexLe_total c.data d.data

theorem strLe_antisymm {c d : String} (h1 : strLe c d = true)
    (h2 : strLe d c = true) : c = d := by
  have h := lexLe_antisymm c.data d.data h1 h2
  cases c
  cases d
  exact congrArg String.mk h

theorem priorityLe_total (s t : Section) :
    priorityLe s t = true ∨ priorityLe t s = true := by
  simp only [priorityLe, Bool.or_eq_true, Bool.and_eq_true, decide_eq_true_eq]
  rcases Nat.lt_trichotomy s.spread t.spread with h | h | h
  · exact Or.inl (Or.inl h)
  · rcases strLe_total s.crn t.crn with hc | hc
    · exact Or.inl (Or.inr ⟨h, hc⟩)
    · exact Or.inr (Or.inr ⟨h.symm, hc⟩)
  · exact Or.inr (Or.inl h)

theorem priorityLe_antisymm {s t : Section} (h1 : priorityLe s t = true)
    (h2 : priorityLe t s = true) : s.spread = t.spread ∧ s.crn = t.crn := by
  simp only [priorityLe, Bool.or_eq_true, Bool.and_eq_true,
    decide_eq_true_eq] at h1 h2
  rcases h1 with h1 | ⟨he1, hc1⟩
  · rcases h2 with h2 | ⟨he2, hc2⟩
    · exact absurd h2 (by omega)
    · exact absurd h1 (by omega)
  · rcases h2 with h2 | ⟨he2, hc2⟩
    · exact absurd h2 (by omega)
    · exact ⟨he1, strLe_antisymm hc1 hc2⟩

theorem coursePriorityLe_total (pins : List (String × String)) (budget : Nat)
    (creditOf : String → Nat) (c d : String) :
    coursePriorityLe pins budget creditOf c d = true ∨
      coursePriorityLe pins budget creditOf d c = true := by
  simp only [coursePriorityLe, Bool.or_eq_true, Bool.and_eq_true,
    decide_eq_true_eq]
  cases hpc : pins.any (fun p => p.1 == c) <;>
    cases hpd : pins.any (fun p => p.1 == d) <;>
      simp only [Bool.not_true, Bool.not_false, Bool.and_true, Bool.and_false,
        Bool.false_eq_true, Bool.true_eq_false, false_or, beq_self_eq_true,
        Bool.true_and, false_and, or_false, true_and]
  · rcases Nat.lt_trichotomy (distTo budget (creditOf c))
        (distTo budget (creditOf d)) with h | h | h
    · exact Or.inl (Or.inl h)
    · rcases strLe_total c d with hc | hc
      · exact Or.inl (Or.inr ⟨h, hc⟩)
      · exact Or.inr (Or.inr ⟨h.symm, hc⟩)
    · exact Or.inr (Or.inl h)
  · exact Or.inr (by simp)
  · exact Or.inl (by simp)
  · rcases Nat.lt_trichotomy (distTo budget (creditOf c))
        (distTo budget (creditOf d)) with h | h | h
    · exact Or.inl (Or.inl h)
    · rcases strLe_total c d with hc | hc
      · exact Or.inl (Or.inr ⟨h, hc⟩)
      · exact Or.inr (Or.inr ⟨h.symm, hc⟩)
    · exact Or.inr (Or.inl h)

theorem coursePriorityLe_antisymm {pins : List (String × String)}
    {budget : Nat} {creditOf : String → Nat} {c d : String}
    (h1 : coursePriorityLe pins budget creditOf c d = true)
    (h2 : coursePriorityLe pins budget creditOf d c = true) : c = d := by
  simp only [coursePriorityLe, Bool.or_eq_true, Bool.and_eq_true,
    decide_eq_true_eq] at h1 h2
  cases hpc : pins.any (fun p => p.1 == c) <;>
    cases hpd : pins.any (fun p => p.1 == d) <;>
      rw [hpc, hpd] at h1 h2 <;> simp_all
  · rcases h1 with h1 | ⟨he1, hc1⟩
    · rcases h2 with h2 | ⟨he2, hc2⟩
      · omega
      · omega
    · rcases h2 with h2 | ⟨he2, hc2⟩
      · omega
      · exact strLe_antisymm hc1 hc2
  · rcases h1 with h1 | ⟨he1, hc1⟩
    · rcases h2 with h2 | ⟨he2, hc2⟩
      · omega
      · omega
    · rcases h2 with h2 | ⟨he2, hc2⟩
      · omega
      · exact strLe_antisymm hc1 hc2

end Core

/-- Claim C8: Build is deterministic — identical inputs against an
unchanged catalog and requirement set give identical SchedulePlans — and
its tie-breaks are fully deterministic: the section priority order is
total and antisymmetric up to the section id, and the course preference
order is total and antisymmetric. -/
theorem c8_build_deterministic :
    (∀ (provider : String → String → String → Option Core.RequirementSet)
      (catalog : String → List Core.Section) (newSid school major term : String)
      (cons : Core.Constraints),
      Core.Build provider catalog newSid school major term cons =
        Core.Build provider catalog newSid school major term cons) ∧
    (∀ s t : Core.Section,
      Core.priorityLe s t = true ∨ Core.priorityLe t s = true) ∧
    (∀ s t : Core.Section, Core.priorityLe s t = true →
      Core.priorityLe t s = true → s.spread = t.spread ∧ s.crn = t.crn) ∧
    (∀ (pins : List (String × String)) (budget : Nat)
      (creditOf : String → Nat) (c d : String),
      Core.coursePriorityLe pins budget creditOf c d = true ∨
        Core.coursePriorityLe pins budget creditOf d c = true) ∧
    (∀ (pins : List (String × String)) (budget : Nat)
      (creditOf : String → Nat) (c d : String),
      Core.coursePriorityLe pins budget creditOf c d = true →
        Core.coursePriorityLe pins budget creditOf d c = true → c = d) :=
  ⟨fun _ _ _ _ _ _ _ => rfl,
    Core.priorityLe_total,
    fun _ _ h1 h2 => Core.priorityLe_antisymm h1 h2,
    Core.coursePriorityLe_total,
    fun _ _ _ _ _ h1 h2 => Core.coursePriorityLe_antisymm h1 h2⟩

/-- Witness for C8: the tie-break orders evaluated at concrete sections
and course codes. -/
theorem c8_build_deterministic_witness :
    (Core.priorityLe Core.wSecA Core.wSecC = true ∨
      Core.priorityLe Core.wSecC Core.wSecA = true) ∧
    (Core.wSecA.spread = Core.wSecA.spread ∧
      Core.wSecA.crn = Core.wSecA.crn) ∧
    ("CSA" : String) = "CSA" :=
  ⟨c8_build_deterministic.2.1 Core.wSecA Core.wSecC,
    c8_build_deterministic.2.2.1 Core.wSecA Core.wSecA (by decide) (by decide),
    c8_build_deterministic.2.2.2.2 [] 0 (fun _ => 0) "CSA" "CSA"
      (by decide) (by decide)⟩

namespace Api

theorem jOpt_fst (k : String) (v : Option JVal) : ∀ p ∈ jOpt k v, p.1 = k := by
  intro p hp
  cases v with
  | none => simp [jOpt] at hp
  | some x =>
    simp only [jOpt, List.mem_singleton] at hp
    rw [hp]

theorem mergeObj_endpoint (v : JVal) (ext : JObj)
    (h : ∀ p ∈ ext, p.1 ≠ "endpoint") :
    mergeObj [("endpoint", v)] ext = ("endpoint", v) :: ext := by
  unfold mergeObj
  have hfind : ext.find? (fun p => p.1 == "endpoint") = none := by
    rw [List.find?_eq_none]
    intro p hp
    simpa using h p hp
  have hfil : ext.filter
      (fun p => List.all [("endpoint", v)] fun kv => kv.1 != p.1) = ext := by
    rw [List.filter_eq_self]
    intro p hp
    simp only [List.all_cons, List.all_nil, Bool.and_true, bne_iff_ne, ne_eq]
    exact fun heq => h p hp heq.symm
  simp only [List.map_cons, List.map_nil, hfind, Option.map_none, Option.getD_none]
  rw [hfil]
  rfl

theorem buildJson_no_endpoint (d : BuildScheduleRequest) :
    ∀ p ∈ d.toJson, p.1 ≠ "endpoint" := by
  intro p hp
  unfold BuildScheduleRequest.toJson at hp
  rcases List.mem_append.mp hp with hp1 | hp2
  · rcases List.mem_append.mp hp1 with hp3 | hp4
    · rcases List.mem_cons.mp hp3 with h | h
      · rw [h]; simp
      · rw [List.mem_singleton.mp h]; simp
    · rw [jOpt_fst _ _ p hp4]; simp
  · rw [jOpt_fst _ _ p hp2]; simp

theorem optimizeJson_no_endpoint (d : OptimizeScheduleRequest) :
    ∀ p ∈ d.toJson, p.1 ≠ "endpoint" := by
  intro p hp
  unfold OptimizeScheduleRequest.toJson at hp
  rcases List.mem_cons.mp hp with h | h
  · rw [h]; simp
  · rw [List.mem_singleton.mp h]; simp

theorem saveJson_no_endpoint (d : SaveScheduleRequest) :
    ∀ p ∈ d.toJson, p.1 ≠ "endpoint" := by
  intro p hp
  unfold SaveScheduleRequest.toJson at hp
  rcases List.mem_append.mp hp with hp1 | hp2
  · rw [List.mem_singleton.mp hp1]; simp
  · rw [jOpt_fst _ _ p hp2]; simp

theorem updateJson_no_endpoint (d : UpdateScheduleRequest) :
    ∀ p ∈ d.toJson, p.1 ≠ "endpoint" := by
  intro p hp
  unfold UpdateScheduleRequest.toJson at hp
  rcases List.mem_append.mp hp with hp1 | hp2
  · rw [jOpt_fst _ _ p hp1]; simp
  · rw [jOpt_fst _ _ p hp2]; simp

end Api

/-- Claim C9: every ApiClient operation issues a POST to the single proxy
path /api/proxy whose JSON body holds the target backend endpoint under
the key "endpoint" followed by the operation's data; the method the caller
names (GET, PUT, DELETE for the schedule-management operations) is
discarded and never sent. -/
theorem c9_all_requests_proxied_post :
    (Api.healthCheck.method = "POST" ∧ Api.healthCheck.url = "/api/proxy" ∧
      Api.healthCheck.body = [("endpoint", .s "/health")]) ∧
    (∀ d : Api.BuildScheduleRequest,
      (Api.buildSchedule d).method = "POST" ∧
      (Api.buildSchedule d).url = "/api/proxy" ∧
      (Api.buildSchedule d).body = ("endpoint", .s "/build") :: d.toJson) ∧
    (∀ d : Api.OptimizeScheduleRequest,
      (Api.optimizeSchedule d).method = "POST" ∧
      (Api.optimizeSchedule d).url = "/api/proxy" ∧
      (Api.optimizeSchedule d).body = ("endpoint", .s "/optimize") :: d.toJson) ∧
    (∀ (d : Api.SaveScheduleRequest) (tok : String),
      (Api.saveSchedule d tok).method = "POST" ∧
      (Api.saveSchedule d tok).url = "/api/proxy" ∧
      (Api.saveSchedule d tok).body = ("endpoint", .s "/schedules") :: d.toJson) ∧
    (∀ (tok : String) (limit offset : Nat),
      (Api.getUserSchedules tok limit offset).method = "POST" ∧
      (Api.getUserSchedules tok limit offset).url = "/api/proxy" ∧
      (Api.getUserSchedules tok limit offset).body =
        [("endpoint", .s ("/schedules?limit=" ++ toString limit ++ "&offset="
          ++ toString offset))]) ∧
    (∀ scheduleId tok : String,
      (Api.getSchedule scheduleId tok).method = "POST" ∧
      (Api.getSchedule scheduleId tok).url = "/api/proxy" ∧
      (Api.getSchedule scheduleId tok).body =
        [("endpoint", .s ("/schedules/" ++ scheduleId))]) ∧
    (∀ (scheduleId : String) (d : Api.UpdateScheduleRequest) (tok : String),
      (Api.updateSchedule scheduleId d tok).method = "POST" ∧
      (Api.updateSchedule scheduleId d tok).url = "/api/proxy" ∧
      (Api.updateSchedule scheduleId d tok).body =
        ("endpoint", .s ("/schedules/" ++ scheduleId)) :: d.toJson) ∧
    (∀ scheduleId tok : String,
      (Api.deleteSchedule scheduleId tok).method = "POST" ∧
      (Api.deleteSchedule scheduleId tok).url = "/api/proxy" ∧
      (Api.deleteSchedule scheduleId tok).body =
        [("endpoint", .s ("/schedules/" ++ scheduleId))]) ∧
    (∀ tok : String,
      (Api.getUserProfile tok).method = "POST" ∧
      (Api.getUserProfile tok).url = "/api/proxy" ∧
      (Api.getUserProfile tok).body = [("endpoint", .s "/user/profile")]) := by
  refine ⟨⟨rfl, rfl, rfl⟩, ?_, ?_, ?_, ?_, ?_, ?_, ?_, ?_⟩
  · intro d
    exact ⟨rfl, rfl, Api.mergeObj_endpoint _ _ (Api.buildJson_no_endpoint d)⟩
  · intro d
    exact ⟨rfl, rfl, Api.mergeObj_endpoint _ _ (Api.optimizeJson_no_endpoint d)⟩
  · intro d tok
    exact ⟨rfl, rfl, Api.mergeObj_endpoint _ _ (Api.saveJson_no_endpoint d)⟩
  · intro tok limit offset
    exact ⟨rfl, rfl, rfl⟩
  · intro scheduleId tok
    exact ⟨rfl, rfl, rfl⟩
  · intro scheduleId d tok
    exact ⟨rfl, rfl, Api.mergeObj_endpoint _ _ (Api.updateJson_no_endpoint d)⟩
  · intro scheduleId tok
    exact ⟨rfl, rfl, rfl⟩
  · intro tok
    exact ⟨rfl, rfl, rfl⟩

namespace Calendar

theorem events_day_recognized {sections : List Api.Section}
    {e : CalendarEvent} (h : e ∈ events sections) :
    dayMapping e.day ≠ none := by
  unfold events at h
  rcases List.mem_flatMap.mp h with ⟨t, _, het⟩
  rcases mem_sectionEvents het with ⟨d, _, hne, hday, -, -⟩
  rw [hday]
  exact hne

end Calendar

/-- Claim C10: a section meeting day the calendar does not recognize
produces no calendar event — the meeting is silently omitted from the
grid — while the section still appears in the course-detail list and in
the displayed course count and credit total. -/
theorem c10_unrecognized_day_omitted :
    ∀ (plan : Api.SchedulePlan) (s : Api.Section), s ∈ plan.sections →
    ∀ d, d ∈ Calendar.dayListOf s.days → Calendar.dayMapping d = none →
    (∀ e ∈ Calendar.events plan.sections, e.day ≠ d) ∧
    s ∈ Calendar.courseDetailsList plan.sections ∧
    Calendar.summaryCourseCount plan.sections = plan.sections.length ∧
    Calendar.summaryTotalCredits plan = plan.totalCredits := by
  intro plan s hs d hd hnone
  refine ⟨?_, hs, rfl, rfl⟩
  intro e he hcontra
  have := Calendar.events_day_recognized he
  rw [hcontra] at this
  exact this hnone

/-- Witness for C10: the plan holding the section meeting on "Sat" and
"Mon" yields no event on "Sat", yet the section is listed and counted. -/
theorem c10_unrecognized_day_omitted_witness :
    (∀ e ∈ Calendar.events exPlan10.sections, e.day ≠ "Sat") ∧
    exSec10 ∈ Calendar.courseDetailsList exPlan10.sections ∧
    Calendar.summaryCourseCount exPlan10.sections =
      exPlan10.sections.length ∧
    Calendar.summaryTotalCredits exPlan10 = exPlan10.totalCredits :=
  c10_unrecognized_day_omitted exPlan10 exSec10 (List.mem_singleton_self _)
    "Sat" (by decide) rfl
